import Mathlib

/-!
Shallow embedding of the discrete-event ticket-booking simulation in
`project.py` (simpy based).  The simpy runtime that the source program runs
on is embedded explicitly:

* the environment keeps a pending-event queue ordered by
  (timestamp, priority, event id) exactly as simpy's heap does
  (priority 0 = URGENT, used for process initialisation, 1 = NORMAL,
  used for timeouts and triggered resource events);
* a `simpy.Resource` keeps a count of busy slots (`users`) and a FIFO
  put-queue of pending requests (`queue`); granting pops the queue head
  and schedules the resumption of the granted process at the current
  time (simpy `Request.succeed`), releasing frees the slot synchronously
  and schedules a release event whose firing grants the next waiter
  (simpy `Resource._trigger_put`, which grants at most one request);
* `random.expovariate(ARRIVAL_RATE)` draws are abstracted into an input
  stream `gaps : Nat -> Rat` of successive non-negative inter-arrival gaps
  (a fixed random seed determines this stream);
* `env.run(until=SIMULATION_TIME)` executes pending events in key order
  while their timestamp is strictly below the horizon; the remaining
  events are discarded (simpy stops at the URGENT stop event at the
  horizon, so NORMAL events at or past the horizon never fire);
* python floats are modelled as rationals; every number the program
  manipulates is exactly representable.

The driver loop takes explicit fuel: the source loop's termination depends
on the random gaps (all-zero gaps would make `env.run` diverge), so the
embedding is parametric in the number of processed events.

The fields `arrivals` and `trace` are ghost instrumentation: `arrivals`
counts the arrivals the generator has classified (admitted or rejected)
and `trace` records the timestamp of every executed event.  They are
written by the interpreter but never read, so they do not affect the
behaviour being modelled.
-/

/-- Constant PEAK_USERS = 500 from project.py. -/
def PEAK_USERS : ℚ := 500

/-- Constant PROCESSING_TIME = 0.2 from project.py (the rational 2/10). -/
def PROCESSING_TIME : ℚ := mkRat 2 10

/-- Constant SIMULATION_TIME = 10 from project.py. -/
def SIMULATION_TIME : ℚ := 10

/-- Constant ARRIVAL_RATE = PEAK_USERS / SIMULATION_TIME from project.py.
It only parametrises the exponential draws, which are abstracted into the
gap stream, so it is never used computationally here. -/
def ARRIVAL_RATE : ℚ := PEAK_USERS / SIMULATION_TIME

/-- Constant MAX_QUEUE_SIZE = 100 from project.py. -/
def MAX_QUEUE_SIZE : ℕ := 100

/-- The continuations that can sit in the pending-event queue.

* `genInit`: the Initialize event of the `user_request_generator` process.
* `arrival`: an inter-arrival `env.timeout` of the generator fires; the
  generator classifies the arrival and reschedules itself.
* `initHandler`: the Initialize event of a `handle_request` process; it
  reads `env.now` as its `arrival_time` and issues `server.request()`.
* `grant a`: the `Request` event of the handler with arrival time `a` was
  succeeded; the handler resumes after `yield req`.
* `done a`: the `env.timeout(PROCESSING_TIME)` of the handler with arrival
  time `a` fires; the handler releases the server and records the
  response time.
* `release`: a `Release` event fires; its callback grants the next waiter. -/
inductive EventKind : Type
  | genInit : EventKind
  | arrival : EventKind
  | initHandler : EventKind
  | grant : ℚ → EventKind
  | done : ℚ → EventKind
  | release : EventKind
deriving DecidableEq

/-- A scheduled event: timestamp, simpy priority (0 = URGENT, 1 = NORMAL),
insertion id (simpy's monotonically increasing event id, the final
tie-break of its heap), and the continuation. -/
structure Event where
  time : ℚ
  prio : ℕ
  eid : ℕ
  kind : EventKind
deriving DecidableEq

/-- The strict-total heap order of simpy: lexicographic on
(timestamp, priority, event id); event ids are unique. -/
def Event.before (e f : Event) : Bool :=
  if e.time < f.time then true
  else if f.time < e.time then false
  else if e.prio < f.prio then true
  else if f.prio < e.prio then false
  else e.eid ≤ f.eid

/-- Pop the heap minimum: the `before`-least event and the remaining
events (as a permutation of the rest of the list). -/
def extractMin : List Event → Option (Event × List Event)
  | [] => none
  | e :: es =>
    match extractMin es with
    | none => some (e, [])
    | some (m, rest) => if e.before m then some (e, es) else some (m, e :: rest)

/-- The whole mutable state of one `run_simulation` call: the simpy
environment (`now`, `pending`, `nextEid`), the position in the random
stream (`gapIdx`), the `simpy.Resource` (`users`, `capacity`, `queue`,
where `queue` holds the arrival times of the waiting requests in FIFO
order), the accumulators `response_times[n]` / `dropped_requests[n]` of
the source, and the ghost fields `arrivals` and `trace`. -/
structure SimState where
  now : ℚ
  pending : List Event
  nextEid : ℕ
  gapIdx : ℕ
  users : ℕ
  capacity : ℕ
  queue : List ℚ
  responses : List ℚ
  dropped : ℕ
  arrivals : ℕ
  trace : List ℚ
deriving DecidableEq

/-- simpy `Environment.schedule`: append an event at `now + delay` with
the given priority and the next fresh event id. -/
def SimState.schedule (s : SimState) (delay : ℚ) (prio : ℕ) (k : EventKind) :
    SimState :=
  { s with
    pending := s.pending ++ [⟨s.now + delay, prio, s.nextEid, k⟩]
    nextEid := s.nextEid + 1 }

/-- simpy `Resource._trigger_put` with `Resource._do_put`: look at the head
of the put-queue; if a slot is free, pop it, occupy the slot and schedule
the resumption of the granted handler at the current time (the `Request`
event succeeds).  At most one request is granted per trigger (the source
loop breaks after the first `_do_put`). -/
def triggerPut (s : SimState) : SimState :=
  match s.queue with
  | [] => s
  | a :: rest =>
    if s.users < s.capacity then
      SimState.schedule { s with queue := rest, users := s.users + 1 } 0 1
        (EventKind.grant a)
    else s

/-- Execute one fired event's continuation, mirroring the source processes
statement by statement (see the doc of `EventKind`).  `s.now` has already
been advanced to the event's timestamp by the driver. -/
def step (gaps : ℕ → ℚ) (s : SimState) (k : EventKind) : SimState :=
  match k with
  | EventKind.genInit =>
    SimState.schedule { s with gapIdx := s.gapIdx + 1 } (gaps s.gapIdx) 1
      EventKind.arrival
  | EventKind.arrival =>
    let s1 := { s with arrivals := s.arrivals + 1 }
    if MAX_QUEUE_SIZE ≤ s1.queue.length then
      SimState.schedule { s1 with dropped := s1.dropped + 1, gapIdx := s1.gapIdx + 1 }
        (gaps s1.gapIdx) 1 EventKind.arrival
    else
      SimState.schedule
        { (SimState.schedule s1 0 0 EventKind.initHandler) with gapIdx := s1.gapIdx + 1 }
        (gaps s1.gapIdx) 1 EventKind.arrival
  | EventKind.initHandler =>
    triggerPut { s with queue := s.queue ++ [s.now] }
  | EventKind.grant a =>
    if 1 < s.now - a then
      SimState.schedule { s with dropped := s.dropped + 1, users := s.users - 1 } 0 1
        EventKind.release
    else
      SimState.schedule s PROCESSING_TIME 1 (EventKind.done a)
  | EventKind.done a =>
    SimState.schedule
      { s with users := s.users - 1, responses := s.responses ++ [s.now - a] } 0 1
      EventKind.release
  | EventKind.release => triggerPut s

/-- simpy `env.run(until=SIMULATION_TIME)`: repeatedly pop the heap
minimum; if its timestamp is below the horizon, advance the clock to it,
record it in the ghost trace and run its continuation, otherwise stop
(leaving the later events discarded).  Fuel bounds the number of
processed events. -/
def runLoop (gaps : ℕ → ℚ) : ℕ → SimState → SimState
  | 0, s => s
  | fuel + 1, s =>
    match extractMin s.pending with
    | none => s
    | some (e, rest) =>
      if e.time < SIMULATION_TIME then
        runLoop gaps fuel
          (step gaps { s with now := e.time, pending := rest, trace := s.trace ++ [e.time] } e.kind)
      else s

/-- The state at the start of `env.run`: clock at 0, the generator's
Initialize event pending (URGENT, id 0), empty resource and accumulators. -/
def initState (capacity : ℕ) : SimState :=
  { now := 0
    pending := [⟨0, 0, 0, EventKind.genInit⟩]
    nextEid := 1
    gapIdx := 0
    users := 0
    capacity := capacity
    queue := []
    responses := []
    dropped := 0
    arrivals := 0
    trace := [] }

/-- The simulation part of `run_simulation`: build the environment and the
resource and drive the event loop to the horizon. -/
def simulate (gaps : ℕ → ℚ) (fuel : ℕ) (numServers : ℕ) : SimState :=
  runLoop gaps fuel (initState numServers)

/-- Line 67 of project.py:
`statistics.mean(xs) if xs else float('inf')`.
The non-numeric sentinel `float('inf')` of the empty-list branch is
rendered as `none`; a computed mean is `some` of the arithmetic mean. -/
def avgResponse (xs : List ℚ) : Option ℚ :=
  if xs = [] then none else some (xs.sum / (xs.length : ℚ))

/-- The failure the spec names `InvalidConfigurationError`: simpy's
`Resource.__init__` raises `ValueError` when `capacity <= 0`, which aborts
`run_simulation` before `env.run` starts. -/
inductive SimError : Type
  | invalidConfiguration : SimError
deriving DecidableEq

/-- `run_simulation(num_servers)` from project.py: validate the capacity
(simpy `Resource` rejects a non-positive one before any event runs), run
the simulation, then derive the output triple
(average response time, utilization percentage, dropped count). -/
def run_simulation (gaps : ℕ → ℚ) (fuel : ℕ) (num_servers : ℤ) :
    Except SimError (Option ℚ × ℚ × ℕ) :=
  if num_servers ≤ 0 then Except.error SimError.invalidConfiguration
  else
    let s := simulate gaps fuel num_servers.toNat
    Except.ok (avgResponse s.responses,
      s.responses.sum / ((num_servers : ℚ) * SIMULATION_TIME) * 100,
      s.dropped)

/-- An event whose continuation belongs to an admitted, not yet resolved
request (a handler about to enter the queue, a pending grant, or a pending
service completion). -/
def EventKind.isReq : EventKind → Bool
  | EventKind.initHandler => true
  | EventKind.grant _ => true
  | EventKind.done _ => true
  | _ => false

/-- Number of admitted requests that are still in flight: waiting in the
resource queue, or owning a pending handler event. -/
def unresolvedCount (s : SimState) : ℕ :=
  s.queue.length + s.pending.countP (fun e => e.kind.isReq)

/-- The run has genuinely ended (not merely run out of fuel): the pending
queue is empty or its minimum is at or past the horizon. -/
def finishedRun (s : SimState) : Bool :=
  match extractMin s.pending with
  | none => true
  | some (e, _) => SIMULATION_TIME ≤ e.time

/-- Run-time invariant of the event loop (needs non-negative gaps):

* every pending event lies at or after the clock;
* a pending grant resumption never precedes its request's arrival;
* a pending service completion lies between PROCESSING_TIME and
  1 + PROCESSING_TIME after its request's arrival;
* waiting requests arrived at or before the clock;
* every recorded response time lies in
  [PROCESSING_TIME, 1 + PROCESSING_TIME];
* the ghost trace is non-decreasing, bounded by the clock and strictly
  below the horizon. -/
structure SimInv (s : SimState) : Prop where
  hpend : ∀ e ∈ s.pending, s.now ≤ e.time
  hgrant : ∀ e ∈ s.pending, ∀ a, e.kind = EventKind.grant a → a ≤ e.time
  hdone : ∀ e ∈ s.pending, ∀ a, e.kind = EventKind.done a →
    PROCESSING_TIME ≤ e.time - a ∧ e.time - a ≤ 1 + PROCESSING_TIME
  hqueue : ∀ a ∈ s.queue, a ≤ s.now
  hresp : ∀ r ∈ s.responses, PROCESSING_TIME ≤ r ∧ r ≤ 1 + PROCESSING_TIME
  htrLe : ∀ t ∈ s.trace, t ≤ s.now
  htrChain : List.Chain' (· ≤ ·) s.trace
  htrLt : ∀ t ∈ s.trace, t < SIMULATION_TIME

/-- Request conservation: resolved plus in-flight requests account for all
classified arrivals. -/
def balanced (s : SimState) : Prop :=
  s.dropped + s.responses.length + unresolvedCount s = s.arrivals

/-- Gap stream with a constant gap of 2 time units between arrivals. -/
def gapsTwo : ℕ → ℚ := fun _ => 2

/-- Gap stream whose first arrival already lies past the horizon. -/
def gapsTwenty : ℕ → ℚ := fun _ => 20

/-- Gap stream with a single arrival just before the horizon (at 9.9) and
all later arrivals past it: the request is admitted and granted, but its
service completion at 10.1 falls beyond the horizon and is discarded. -/
def gapsLate : ℕ → ℚ := fun k => if k = 0 then mkRat 99 10 else 6

/-- Gap stream with a constant gap of 1 time unit between arrivals. -/
def gapsOne : ℕ → ℚ := fun _ => 1

/-- A concrete mid-run state used to observe single-step behaviour: clock
at 5, two of three servers busy, empty waiting line. -/
def probeState : SimState :=
  { now := 5
    pending := []
    nextEid := 3
    gapIdx := 2
    users := 2
    capacity := 3
    queue := []
    responses := []
    dropped := 4
    arrivals := 6
    trace := [] }

/-- A concrete state whose waiting line holds exactly MAX_QUEUE_SIZE
requests, used to observe the queue-full boundary. -/
def fullState : SimState :=
  { now := 5
    pending := []
    nextEid := 3
    gapIdx := 2
    users := 1
    capacity := 1
    queue := List.replicate 100 0
    responses := []
    dropped := 4
    arrivals := 6
    trace := [] }

section SanityChecks

attribute [local semireducible] Rat.add Rat.sub

/-- A single arrival at time 2 on one server is admitted, granted at once,
served for PROCESSING_TIME and recorded with response time 2/10. -/
example : (simulate gapsTwo 7 1).responses = [mkRat 2 10] := by decide

example : (simulate gapsTwo 7 1).dropped = 0 := by decide

end SanityChecks

/-! ### Order properties of the heap key -/

theorem Event.before_iff (e f : Event) :
    e.before f = true ↔
      e.time < f.time ∨ (e.time = f.time ∧
        (e.prio < f.prio ∨ (e.prio = f.prio ∧ e.eid ≤ f.eid))) := by
  unfold Event.before
  split_ifs with h1 h2 h3 h4
  · simp [h1]
  · simp [h1, h2.ne']
  · have ht : e.time = f.time := le_antisymm (not_lt.mp h2) (not_lt.mp h1)
    simp [ht, h3, lt_irrefl]
  · have ht : e.time = f.time := le_antisymm (not_lt.mp h2) (not_lt.mp h1)
    simp [ht, h3, h4.ne', lt_irrefl]
  · have ht : e.time = f.time := le_antisymm (not_lt.mp h2) (not_lt.mp h1)
    have hp : e.prio = f.prio := Nat.le_antisymm (Nat.not_lt.mp h4) (Nat.not_lt.mp h3)
    simp [ht, hp, lt_irrefl]

theorem Event.before_total (e f : Event) :
    e.before f = true ∨ f.before e = true := by
  rw [Event.before_iff, Event.before_iff]
  rcases lt_trichotomy e.time f.time with ht | ht | ht
  · exact Or.inl (Or.inl ht)
  · rcases lt_trichotomy e.prio f.prio with hp | hp | hp
    · exact Or.inl (Or.inr ⟨ht, Or.inl hp⟩)
    · rcases Nat.le_total e.eid f.eid with he | he
      · exact Or.inl (Or.inr ⟨ht, Or.inr ⟨hp, he⟩⟩)
      · exact Or.inr (Or.inr ⟨ht.symm, Or.inr ⟨hp.symm, he⟩⟩)
    · exact Or.inr (Or.inr ⟨ht.symm, Or.inl hp⟩)
  · exact Or.inr (Or.inl ht)

theorem Event.before_trans {e f g : Event} (hef : e.before f = true)
    (hfg : f.before g = true) : e.before g = true := by
  rw [Event.before_iff] at *
  rcases hef with h1 | ⟨h1, h2⟩
  · rcases hfg with h3 | ⟨h3, h4⟩
    · exact Or.inl (h1.trans h3)
    · exact Or.inl (h3 ▸ h1)
  · rcases hfg with h3 | ⟨h3, h4⟩
    · exact Or.inl (h1.trans_lt h3)
    · refine Or.inr ⟨h1.trans h3, ?_⟩
      rcases h2 with h2 | ⟨h2, h5⟩
      · rcases h4 with h4 | ⟨h4, h6⟩
        · exact Or.inl (h2.trans h4)
        · exact Or.inl (h4 ▸ h2)
      · rcases h4 with h4 | ⟨h4, h6⟩
        · exact Or.inl (h2.trans_lt h4)
        · exact Or.inr ⟨h2.trans h4, h5.trans h6⟩

theorem Event.before_time_le {e f : Event} (h : e.before f = true) :
    e.time ≤ f.time := by
  rw [Event.before_iff] at h
  rcases h with h | ⟨h, -⟩
  · exact h.le
  · exact h.le

/-! ### Properties of the heap pop -/

theorem extractMin_eq_none {l : List Event} (h : extractMin l = none) :
    l = [] := by
  cases l with
  | nil => rfl
  | cons e es =>
    unfold extractMin at h
    rcases hr : extractMin es with - | ⟨m, rest⟩ <;> rw [hr] at h
    · exact absurd h (by simp)
    · by_cases hb : e.before m <;> simp [hb] at h

theorem extractMin_perm {l : List Event} {m : Event} {rest : List Event}
    (h : extractMin l = some (m, rest)) : l.Perm (m :: rest) := by
  induction l generalizing m rest with
  | nil => exact absurd h (by simp [extractMin])
  | cons e es ih =>
    unfold extractMin at h
    rcases hr : extractMin es with - | ⟨m0, rest0⟩ <;> rw [hr] at h
    · rcases extractMin_eq_none hr with rfl
      simp only [Option.some.injEq, Prod.mk.injEq] at h
      rcases h with ⟨rfl, rfl⟩
      exact List.Perm.refl _
    · by_cases hb : e.before m0 <;> simp only [hb, if_true, if_false,
        Bool.false_eq_true, if_neg, Option.some.injEq, Prod.mk.injEq] at h
      · rcases h with ⟨rfl, rfl⟩
        exact List.Perm.refl _
      · rcases h with ⟨rfl, rfl⟩
        exact ((ih hr).cons e).trans (List.Perm.swap m0 e rest0)

theorem extractMin_min {l : List Event} {m : Event} {rest : List Event}
    (h : extractMin l = some (m, rest)) :
    ∀ x ∈ rest, m.before x = true := by
  induction l generalizing m rest with
  | nil => exact absurd h (by simp [extractMin])
  | cons e es ih =>
    unfold extractMin at h
    rcases hr : extractMin es with - | ⟨m0, rest0⟩ <;> rw [hr] at h
    · simp only [Option.some.injEq, Prod.mk.injEq] at h
      rcases h with ⟨rfl, rfl⟩
      intro x hx
      exact absurd hx (List.not_mem_nil x)
    · by_cases hb : e.before m0 <;> simp only [hb, if_true, if_false,
        Bool.false_eq_true, if_neg, Option.some.injEq, Prod.mk.injEq] at h
      · rcases h with ⟨rfl, rfl⟩
        intro x hx
        have hx2 : x ∈ m0 :: rest0 := (extractMin_perm hr).mem_iff.mp hx
        rcases List.mem_cons.mp hx2 with rfl | hx3
        · exact hb
        · exact Event.before_trans hb (ih hr x hx3)
      · rcases h with ⟨rfl, rfl⟩
        intro x hx
        rcases List.mem_cons.mp hx with h5 | hx3
        · rw [h5]
          rcases Event.before_total e m0 with hbb | hbb
          · exact absurd hbb hb
          · exact hbb
        · exact ih hr x hx3

theorem extractMin_mem {l : List Event} {m : Event} {rest : List Event}
    (h : extractMin l = some (m, rest)) : m ∈ l :=
  (extractMin_perm h).mem_iff.mpr (List.mem_cons_self m rest)

theorem extractMin_rest_mem {l : List Event} {m : Event} {rest : List Event}
    (h : extractMin l = some (m, rest)) : ∀ x ∈ rest, x ∈ l :=
  fun _ hx => (extractMin_perm h).mem_iff.mpr (List.mem_cons_of_mem m hx)

/-! ### Preservation of the run-time invariant -/

theorem PROCESSING_TIME_pos : 0 < PROCESSING_TIME := by decide

theorem SimInv.of_eq {s t : SimState} (hs : SimInv s) (h1 : t.now = s.now)
    (h2 : t.pending = s.pending) (h3 : t.queue = s.queue)
    (h4 : t.responses = s.responses) (h5 : t.trace = s.trace) : SimInv t := by
  constructor
  · rw [h1, h2]; exact hs.hpend
  · rw [h2]; exact hs.hgrant
  · rw [h2]; exact hs.hdone
  · rw [h1, h3]; exact hs.hqueue
  · rw [h4]; exact hs.hresp
  · rw [h1, h5]; exact hs.htrLe
  · rw [h5]; exact hs.htrChain
  · rw [h5]; exact hs.htrLt

theorem SimInv.schedule {s : SimState} (hs : SimInv s) {d : ℚ} (hd : 0 ≤ d) (p : ℕ)
    (k : EventKind)
    (hk1 : ∀ a, k = EventKind.grant a → a ≤ s.now + d)
    (hk2 : ∀ a, k = EventKind.done a →
      PROCESSING_TIME ≤ s.now + d - a ∧ s.now + d - a ≤ 1 + PROCESSING_TIME) :
    SimInv (s.schedule d p k) := by
  constructor
  · intro e he
    rcases List.mem_append.mp he with h | h
    · exact hs.hpend e h
    · rw [List.mem_singleton.mp h]
      exact le_add_of_nonneg_right hd
  · intro e he a hk
    rcases List.mem_append.mp he with h | h
    · exact hs.hgrant e h a hk
    · rw [List.mem_singleton.mp h] at hk ⊢
      exact hk1 a hk
  · intro e he a hk
    rcases List.mem_append.mp he with h | h
    · exact hs.hdone e h a hk
    · rw [List.mem_singleton.mp h] at hk ⊢
      exact hk2 a hk
  · exact hs.hqueue
  · exact hs.hresp
  · exact hs.htrLe
  · exact hs.htrChain
  · exact hs.htrLt

theorem simInv_triggerPut {s : SimState} (hs : SimInv s) : SimInv (triggerPut s) := by
  unfold triggerPut
  cases hq : s.queue with
  | nil => exact hs
  | cons a rest =>
    by_cases hu : s.users < s.capacity
    · simp only [hu, if_true]
      have ha : a ≤ s.now := hs.hqueue a (by rw [hq]; exact List.mem_cons_self a rest)
      have hbase : SimInv { s with queue := rest, users := s.users + 1 } := by
        refine SimInv.of_eq ?_ rfl rfl rfl rfl rfl
        constructor
        · exact hs.hpend
        · exact hs.hgrant
        · exact hs.hdone
        · intro b hb
          exact hs.hqueue b (by rw [hq]; exact List.mem_cons_of_mem a hb)
        · exact hs.hresp
        · exact hs.htrLe
        · exact hs.htrChain
        · exact hs.htrLt
      refine SimInv.schedule hbase le_rfl 1 (EventKind.grant a) ?_ ?_
      · intro b hb
        cases hb
        simpa using ha
      · intro b hb
        cases hb
    · simp only [hu, if_false]
      exact hs

theorem simInv_step {gaps : ℕ → ℚ} (hg : ∀ i, 0 ≤ gaps i) {t : SimState}
    (ht : SimInv t) :
    SimInv (step gaps t EventKind.genInit) ∧
    SimInv (step gaps t EventKind.arrival) ∧
    SimInv (step gaps t EventKind.initHandler) ∧
    (∀ a, a ≤ t.now → SimInv (step gaps t (EventKind.grant a))) ∧
    (∀ a, PROCESSING_TIME ≤ t.now - a → t.now - a ≤ 1 + PROCESSING_TIME →
      SimInv (step gaps t (EventKind.done a))) ∧
    SimInv (step gaps t EventKind.release) := by
  refine ⟨?_, ?_, ?_, ?_, ?_, ?_⟩
  · simp only [step]
    apply SimInv.schedule
    · exact SimInv.of_eq ht rfl rfl rfl rfl rfl
    · exact hg _
    · intro a h; cases h
    · intro a h; cases h
  · simp only [step]
    split_ifs with hq
    · apply SimInv.schedule
      · exact SimInv.of_eq ht rfl rfl rfl rfl rfl
      · exact hg _
      · intro a h; cases h
      · intro a h; cases h
    · have hin : SimInv (SimState.schedule { t with arrivals := t.arrivals + 1 }
          0 0 EventKind.initHandler) := by
        apply SimInv.schedule
        · exact SimInv.of_eq ht rfl rfl rfl rfl rfl
        · exact le_rfl
        · intro a h; cases h
        · intro a h; cases h
      apply SimInv.schedule
      · exact SimInv.of_eq hin rfl rfl rfl rfl rfl
      · exact hg _
      · intro a h; cases h
      · intro a h; cases h
  · simp only [step]
    refine simInv_triggerPut ?_
    constructor
    · exact ht.hpend
    · exact ht.hgrant
    · exact ht.hdone
    · intro a ha
      rcases List.mem_append.mp ha with h | h
      · exact ht.hqueue a h
      · exact (List.mem_singleton.mp h).le
    · exact ht.hresp
    · exact ht.htrLe
    · exact ht.htrChain
    · exact ht.htrLt
  · intro a ha
    simp only [step]
    split_ifs with hw
    · apply SimInv.schedule
      · exact SimInv.of_eq ht rfl rfl rfl rfl rfl
      · exact le_rfl
      · intro b h; cases h
      · intro b h; cases h
    · apply SimInv.schedule
      · exact ht
      · exact PROCESSING_TIME_pos.le
      · intro b h; cases h
      · intro b h
        cases h
        have hw2 : t.now - a ≤ 1 := not_lt.mp hw
        constructor
        · linarith
        · linarith
  · intro a h1 h2
    simp only [step]
    apply SimInv.schedule
    · constructor
      · exact ht.hpend
      · exact ht.hgrant
      · exact ht.hdone
      · exact ht.hqueue
      · intro r hr
        rcases List.mem_append.mp hr with h | h
        · exact ht.hresp r h
        · rw [List.mem_singleton.mp h]
          exact ⟨h1, h2⟩
      · exact ht.htrLe
      · exact ht.htrChain
      · exact ht.htrLt
    · exact le_rfl
    · intro b h; cases h
    · intro b h; cases h
  · simp only [step]
    exact simInv_triggerPut ht

theorem simInv_execStep {gaps : ℕ → ℚ} (hg : ∀ i, 0 ≤ gaps i)
    {s : SimState} {e : Event} {rest : List Event} (hs : SimInv s)
    (hx : extractMin s.pending = some (e, rest))
    (hlt : e.time < SIMULATION_TIME) :
    SimInv (step gaps
      { s with now := e.time, pending := rest, trace := s.trace ++ [e.time] }
      e.kind) := by
  have hmem : e ∈ s.pending := extractMin_mem hx
  have hnow : s.now ≤ e.time := hs.hpend e hmem
  have hs1 : SimInv
      { s with now := e.time, pending := rest, trace := s.trace ++ [e.time] } := by
    constructor
    · intro x hx2
      exact Event.before_time_le (extractMin_min hx x hx2)
    · intro x hx2 a hk
      exact hs.hgrant x (extractMin_rest_mem hx x hx2) a hk
    · intro x hx2 a hk
      exact hs.hdone x (extractMin_rest_mem hx x hx2) a hk
    · intro a ha
      exact (hs.hqueue a ha).trans hnow
    · exact hs.hresp
    · intro x ht
      rcases List.mem_append.mp ht with h | h
      · exact (hs.htrLe x h).trans hnow
      · exact (List.mem_singleton.mp h).le
    · refine List.chain'_append.mpr ⟨hs.htrChain, List.chain'_singleton _, ?_⟩
      intro x hx2 y hy2
      have hxm : x ∈ s.trace := List.mem_of_getLast?_eq_some hx2
      have hy : e.time = y := by simpa using hy2
      rw [← hy]
      exact (hs.htrLe x hxm).trans hnow
    · intro x ht
      rcases List.mem_append.mp ht with h | h
      · exact hs.htrLt x h
      · rw [List.mem_singleton.mp h]
        exact hlt
  cases hk : e.kind with
  | genInit => exact (simInv_step hg hs1).1
  | arrival => exact (simInv_step hg hs1).2.1
  | initHandler => exact (simInv_step hg hs1).2.2.1
  | grant a =>
    exact (simInv_step hg hs1).2.2.2.1 a (hs.hgrant e hmem a hk)
  | done a =>
    have hb := hs.hdone e hmem a hk
    exact (simInv_step hg hs1).2.2.2.2.1 a hb.1 hb.2
  | release => exact (simInv_step hg hs1).2.2.2.2.2

theorem simInv_runLoop {gaps : ℕ → ℚ} (hg : ∀ i, 0 ≤ gaps i) :
    ∀ fuel : ℕ, ∀ {s : SimState}, SimInv s → SimInv (runLoop gaps fuel s) := by
  intro fuel
  induction fuel with
  | zero => intro s hs; exact hs
  | succ n ih =>
    intro s hs
    rw [runLoop]
    rcases hx : extractMin s.pending with - | ⟨e, rest⟩
    · exact hs
    · by_cases hlt : e.time < SIMULATION_TIME
      · simp only [hlt, if_true]
        exact ih (simInv_execStep hg hs hx hlt)
      · simp only [hlt, if_false]
        exact hs

theorem simInv_initState (c : ℕ) : SimInv (initState c) := by
  constructor
  · intro e he
    rw [List.mem_singleton.mp he]
    exact le_rfl
  · intro e he a hk
    rw [List.mem_singleton.mp he] at hk
    cases hk
  · intro e he a hk
    rw [List.mem_singleton.mp he] at hk
    cases hk
  · intro a ha
    exact absurd ha (List.not_mem_nil a)
  · intro r hr
    exact absurd hr (List.not_mem_nil r)
  · intro t ht
    exact absurd ht (List.not_mem_nil t)
  · exact List.chain'_nil
  · intro t ht
    exact absurd ht (List.not_mem_nil t)

theorem simInv_simulate {gaps : ℕ → ℚ} (hg : ∀ i, 0 ≤ gaps i) (fuel n : ℕ) :
    SimInv (simulate gaps fuel n) :=
  simInv_runLoop hg fuel (simInv_initState n)

/-! ### Conservation of requests -/

@[simp] theorem isReq_genInit : EventKind.genInit.isReq = false := rfl

@[simp] theorem isReq_arrival : EventKind.arrival.isReq = false := rfl

@[simp] theorem isReq_initHandler : EventKind.initHandler.isReq = true := rfl

@[simp] theorem isReq_grant (a : ℚ) : (EventKind.grant a).isReq = true := rfl

@[simp] theorem isReq_done (a : ℚ) : (EventKind.done a).isReq = true := rfl

@[simp] theorem isReq_release : EventKind.release.isReq = false := rfl

theorem triggerPut_balance (s : SimState) :
    (triggerPut s).dropped = s.dropped ∧
    (triggerPut s).responses = s.responses ∧
    (triggerPut s).arrivals = s.arrivals ∧
    unresolvedCount (triggerPut s) = unresolvedCount s := by
  unfold triggerPut
  rcases hq : s.queue with _ | ⟨a, qrest⟩
  · exact ⟨rfl, rfl, rfl, rfl⟩
  · by_cases hu : s.users < s.capacity
    · simp only [hu, if_true]
      refine ⟨rfl, rfl, rfl, ?_⟩
      unfold unresolvedCount SimState.schedule
      simp [List.countP_append, List.countP_cons, hq]
      omega
    · simp only [hu, if_false]
      simp [hq]

theorem balanced_triggerPut {s : SimState} (hb : balanced s) :
    balanced (triggerPut s) := by
  unfold balanced at *
  rcases triggerPut_balance s with ⟨h1, h2, h3, h4⟩
  rw [h1, h2, h3, h4]
  exact hb

theorem balanced_execStep {gaps : ℕ → ℚ} {s : SimState} {e : Event}
    {rest : List Event} (hb : balanced s)
    (hx : extractMin s.pending = some (e, rest)) :
    balanced (step gaps
      { s with now := e.time, pending := rest, trace := s.trace ++ [e.time] }
      e.kind) := by
  have hcount : s.pending.countP (fun x => x.kind.isReq) =
      rest.countP (fun x => x.kind.isReq) + (if e.kind.isReq then 1 else 0) := by
    rw [List.Perm.countP_eq _ (extractMin_perm hx)]
    rw [List.countP_cons]
  unfold balanced unresolvedCount at hb
  cases hk : e.kind with
  | genInit =>
    rw [hk] at hcount
    simp only [isReq_genInit, Bool.false_eq_true, if_false, add_zero] at hcount
    simp only [step]
    unfold balanced unresolvedCount SimState.schedule
    simp only [List.countP_append, List.countP_cons, List.countP_nil]
    simp
    omega
  | arrival =>
    rw [hk] at hcount
    simp only [isReq_arrival, Bool.false_eq_true, if_false, add_zero] at hcount
    simp only [step]
    split_ifs with hq
    · unfold balanced unresolvedCount SimState.schedule
      simp only [List.countP_append, List.countP_cons, List.countP_nil]
      simp
      omega
    · unfold balanced unresolvedCount SimState.schedule
      simp only [List.countP_append, List.countP_cons, List.countP_nil]
      simp
      omega
  | initHandler =>
    rw [hk] at hcount
    simp only [isReq_initHandler, if_true] at hcount
    simp only [step]
    refine balanced_triggerPut ?_
    unfold balanced unresolvedCount
    simp
    omega
  | grant a =>
    rw [hk] at hcount
    simp only [isReq_grant, if_true] at hcount
    simp only [step]
    split_ifs with hw
    · unfold balanced unresolvedCount SimState.schedule
      simp only [List.countP_append, List.countP_cons, List.countP_nil]
      simp
      omega
    · unfold balanced unresolvedCount SimState.schedule
      simp only [List.countP_append, List.countP_cons, List.countP_nil]
      simp
      omega
  | done a =>
    rw [hk] at hcount
    simp only [isReq_done, if_true] at hcount
    simp only [step]
    unfold balanced unresolvedCount SimState.schedule
    simp only [List.countP_append, List.countP_cons, List.countP_nil]
    simp
    omega
  | release =>
    rw [hk] at hcount
    simp only [isReq_release, Bool.false_eq_true, if_false, add_zero] at hcount
    simp only [step]
    refine balanced_triggerPut ?_
    unfold balanced unresolvedCount
    simp
    omega

theorem balanced_runLoop {gaps : ℕ → ℚ} :
    ∀ fuel : ℕ, ∀ {s : SimState}, balanced s → balanced (runLoop gaps fuel s) := by
  intro fuel
  induction fuel with
  | zero => intro s hb; exact hb
  | succ n ih =>
    intro s hb
    rw [runLoop]
    rcases hx : extractMin s.pending with _ | ⟨e, rest⟩
    · exact hb
    · by_cases hlt : e.time < SIMULATION_TIME
      · simp only [hlt, if_true]
        exact ih (balanced_execStep hb hx)
      · simp only [hlt, if_false]
        exact hb

theorem balanced_initState (c : ℕ) : balanced (initState c) := by
  unfold balanced unresolvedCount initState
  simp

theorem balanced_simulate (gaps : ℕ → ℚ) (fuel n : ℕ) :
    balanced (simulate gaps fuel n) :=
  balanced_runLoop fuel (balanced_initState n)

/-! ### Shared helpers for the claim theorems -/

theorem run_simulation_pos_eq (gaps : ℕ → ℚ) (fuel : ℕ) {n : ℤ} (hn : 1 ≤ n) :
    run_simulation gaps fuel n = Except.ok
      (avgResponse (simulate gaps fuel n.toNat).responses,
        (simulate gaps fuel n.toNat).responses.sum /
          ((n : ℚ) * SIMULATION_TIME) * 100,
        (simulate gaps fuel n.toNat).dropped) := by
  unfold run_simulation
  rw [if_neg (by omega : ¬ n ≤ 0)]

theorem responses_sum_nonneg {gaps : ℕ → ℚ} (hg : ∀ i, 0 ≤ gaps i)
    (fuel n : ℕ) : 0 ≤ (simulate gaps fuel n).responses.sum := by
  refine List.sum_nonneg ?_
  intro r hr
  exact PROCESSING_TIME_pos.le.trans ((simInv_simulate hg fuel n).hresp r hr).1

/-! ### Claim theorems -/

/-- C1: for every run with num_servers ≥ 1, the utilization percentage
returned by run_simulation is exactly
(sum of recorded response times) / (num_servers * SIMULATION_TIME) * 100,
computed over time-in-system; it is non-negative; and it is not clamped at
100%: whenever the cumulative response time surpasses the total
server-time capacity, the returned value exceeds 100. -/
theorem claim1_utilization_formula (gaps : ℕ → ℚ) (hg : ∀ i, 0 ≤ gaps i)
    (fuel : ℕ) (n : ℤ) (hn : 1 ≤ n) :
    run_simulation gaps fuel n = Except.ok
      (avgResponse (simulate gaps fuel n.toNat).responses,
        (simulate gaps fuel n.toNat).responses.sum /
          ((n : ℚ) * SIMULATION_TIME) * 100,
        (simulate gaps fuel n.toNat).dropped) ∧
    0 ≤ (simulate gaps fuel n.toNat).responses.sum /
        ((n : ℚ) * SIMULATION_TIME) * 100 ∧
    ((n : ℚ) * SIMULATION_TIME < (simulate gaps fuel n.toNat).responses.sum →
      100 < (simulate gaps fuel n.toNat).responses.sum /
        ((n : ℚ) * SIMULATION_TIME) * 100) := by
  have hncast : (1 : ℚ) ≤ (n : ℚ) := by exact_mod_cast hn
  have hden : (0 : ℚ) < (n : ℚ) * SIMULATION_TIME := by
    have h10 : (0 : ℚ) < SIMULATION_TIME := by norm_num [SIMULATION_TIME]
    nlinarith
  have hsum : 0 ≤ (simulate gaps fuel n.toNat).responses.sum :=
    responses_sum_nonneg hg fuel n.toNat
  refine ⟨run_simulation_pos_eq gaps fuel hn, ?_, ?_⟩
  · positivity
  · intro hgt
    have h1 : (1 : ℚ) < (simulate gaps fuel n.toNat).responses.sum /
        ((n : ℚ) * SIMULATION_TIME) := (one_lt_div hden).mpr hgt
    nlinarith

/-- C2 (amended): every classified arrival is accounted for as dropped
(queue-full or timeout), served, or still in flight when the horizon cuts
the run: dropped + served + in-flight = total arrivals admitted or
rejected, for every run and every fuel. -/
theorem claim2_conservation (gaps : ℕ → ℚ) (fuel n : ℕ) :
    (simulate gaps fuel n).dropped + (simulate gaps fuel n).responses.length
      + unresolvedCount (simulate gaps fuel n) =
      (simulate gaps fuel n).arrivals :=
  balanced_simulate gaps fuel n

/-- C3: when a request with arrival time a is granted a server at clock
t.now, it is dropped (counter incremented, slot released at once, no
service completion scheduled) exactly when its wait strictly exceeds the
1.0 abandonment threshold; otherwise the server is held for exactly
PROCESSING_TIME (completion scheduled at t.now + PROCESSING_TIME), and at
that completion the slot is released and
response_time = current_time - arrival_time is recorded. -/
theorem claim3_grant_policy (gaps : ℕ → ℚ) (t : SimState) (a : ℚ) :
    ((step gaps t (EventKind.grant a)).dropped =
      if 1 < t.now - a then t.dropped + 1 else t.dropped) ∧
    ((step gaps t (EventKind.grant a)).users =
      if 1 < t.now - a then t.users - 1 else t.users) ∧
    ((step gaps t (EventKind.grant a)).responses = t.responses) ∧
    ((step gaps t (EventKind.grant a)).pending =
      if 1 < t.now - a then
        t.pending ++ [⟨t.now, 1, t.nextEid, EventKind.release⟩]
      else
        t.pending ++ [⟨t.now + PROCESSING_TIME, 1, t.nextEid, EventKind.done a⟩]) ∧
    ((step gaps t (EventKind.done a)).responses = t.responses ++ [t.now - a]) ∧
    ((step gaps t (EventKind.done a)).users = t.users - 1) := by
  refine ⟨?_, ?_, ?_, ?_, ?_, ?_⟩ <;>
    simp only [step, SimState.schedule] <;>
    split_ifs <;>
    simp

/-- C4: an arrival is dropped exactly when the waiting line holds at least
MAX_QUEUE_SIZE requests (so a line at exactly MAX_QUEUE_SIZE rejects the
next arrival); otherwise a handler process is started (which enters the
waiting line at the same timestamp) and the generator reschedules itself;
the decision reads only the waiting-line length, never the busy-server
count. -/
theorem claim4_arrival_policy (gaps : ℕ → ℚ) (t : SimState) :
    ((step gaps t EventKind.arrival).dropped =
      if MAX_QUEUE_SIZE ≤ t.queue.length then t.dropped + 1 else t.dropped) ∧
    (t.queue.length = MAX_QUEUE_SIZE →
      (step gaps t EventKind.arrival).dropped = t.dropped + 1) ∧
    ((step gaps t EventKind.arrival).queue = t.queue) ∧
    ((step gaps t EventKind.arrival).pending =
      if MAX_QUEUE_SIZE ≤ t.queue.length then
        t.pending ++ [⟨t.now + gaps t.gapIdx, 1, t.nextEid, EventKind.arrival⟩]
      else
        t.pending ++ [⟨t.now, 0, t.nextEid, EventKind.initHandler⟩,
          ⟨t.now + gaps t.gapIdx, 1, t.nextEid + 1, EventKind.arrival⟩]) ∧
    (∀ u : ℕ, (step gaps { t with users := u } EventKind.arrival).dropped =
      (step gaps t EventKind.arrival).dropped) := by
  refine ⟨?_, ?_, ?_, ?_, ?_⟩
  · simp only [step, SimState.schedule]
    split_ifs <;> simp
  · intro he
    simp only [step, SimState.schedule]
    rw [if_pos (by omega : MAX_QUEUE_SIZE ≤ t.queue.length)]
  · simp only [step, SimState.schedule]
    split_ifs <;> simp
  · simp only [step, SimState.schedule]
    split_ifs <;> simp
  · intro u
    simp only [step, SimState.schedule]
    split_ifs <;> simp

/-- C5: with a valid server count, run_simulation reports the average
response time without raising: the empty-response case yields the explicit
non-numeric sentinel (the float('inf') branch, rendered none), never a
silent 0, and the non-empty case yields the arithmetic mean of the
recorded response times. -/
theorem claim5_average_sentinel (gaps : ℕ → ℚ) (fuel : ℕ) (n : ℤ)
    (hn : 1 ≤ n) :
    (∃ u d, run_simulation gaps fuel n = Except.ok
      (avgResponse (simulate gaps fuel n.toNat).responses, u, d)) ∧
    ((simulate gaps fuel n.toNat).responses = [] →
      avgResponse (simulate gaps fuel n.toNat).responses = none) ∧
    ((simulate gaps fuel n.toNat).responses ≠ [] →
      avgResponse (simulate gaps fuel n.toNat).responses =
        some ((simulate gaps fuel n.toNat).responses.sum /
          ((simulate gaps fuel n.toNat).responses.length : ℚ))) ∧
    avgResponse [] ≠ some 0 := by
  refine ⟨⟨_, _, run_simulation_pos_eq gaps fuel hn⟩, ?_, ?_, ?_⟩
  · intro h
    simp [avgResponse, h]
  · intro h
    simp [avgResponse, h]
  · simp [avgResponse]

/-- C6: a zero or negative server count makes run_simulation fail with the
invalid-configuration error (simpy's Resource capacity validation, raised
before the event loop starts), so no simulation output is produced. -/
theorem claim6_invalid_configuration (gaps : ℕ → ℚ) (fuel : ℕ) (n : ℤ)
    (hn : n ≤ 0) :
    run_simulation gaps fuel n = Except.error SimError.invalidConfiguration := by
  unfold run_simulation
  rw [if_pos hn]

/-- C7: run_simulation is a pure function of the seed-determined gap
stream, the fuel and the server count: two runs on identical inputs return
identical (avg_response_time, utilization, dropped_count) triples. -/
theorem claim7_determinism (g1 g2 : ℕ → ℚ) (f1 f2 : ℕ) (n1 n2 : ℤ)
    (hg : g1 = g2) (hf : f1 = f2) (hn : n1 = n2) :
    run_simulation g1 f1 n1 = run_simulation g2 f2 n2 := by
  rw [hg, hf, hn]

/-- C8: with non-negative inter-arrival gaps, the executed-event trace of
a run is monotonically non-decreasing (the clock advances only by
processing the next queued event and never decreases), and every executed
event lies strictly below the horizon SIMULATION_TIME, so no event
scheduled beyond the horizon is ever executed. -/
theorem claim8_clock_monotone_horizon (gaps : ℕ → ℚ) (hg : ∀ i, 0 ≤ gaps i)
    (fuel n : ℕ) :
    List.Chain' (· ≤ ·) (simulate gaps fuel n).trace ∧
    ∀ x ∈ (simulate gaps fuel n).trace, x < SIMULATION_TIME :=
  ⟨(simInv_simulate hg fuel n).htrChain, (simInv_simulate hg fuel n).htrLt⟩

/-- C9: every recorded response time of a served request lies in the
closed interval [PROCESSING_TIME, 1 + PROCESSING_TIME]: a served request
waited at most the 1.0 abandonment threshold and then held the server for
exactly PROCESSING_TIME. -/
theorem claim9_response_time_bounds (gaps : ℕ → ℚ) (hg : ∀ i, 0 ≤ gaps i)
    (fuel n : ℕ) (r : ℚ) (hr : r ∈ (simulate gaps fuel n).responses) :
    PROCESSING_TIME ≤ r ∧ r ≤ 1 + PROCESSING_TIME :=
  (simInv_simulate hg fuel n).hresp r hr

/-- C10: when no request was served, the utilization degenerates to 0 (the
sum over the empty response list) and the triple is exactly (sentinel
average, 0, dropped count). -/
theorem claim10_no_service_zero_utilization (gaps : ℕ → ℚ) (fuel : ℕ)
    (n : ℤ) (hn : 1 ≤ n)
    (h0 : (simulate gaps fuel n.toNat).responses = []) :
    run_simulation gaps fuel n =
      Except.ok (none, 0, (simulate gaps fuel n.toNat).dropped) := by
  rw [run_simulation_pos_eq gaps fuel hn, h0]
  simp [avgResponse]

/-! ### Witnesses and counterexamples on concrete inputs -/

section Witnesses

attribute [local semireducible] Rat.add Rat.sub

/-- C2, counterexample to the claim as stated: with one arrival at 9.9 on
one server, the request is admitted and granted, but its service
completion at 10.1 lies beyond the horizon and is discarded, so the run
finishes with dropped + served = 0 while one arrival was classified:
dropped_count + served_count differs from the total of admitted or
rejected arrivals. -/
theorem claim2_counterexample :
    (simulate gapsLate 10 1).dropped + (simulate gapsLate 10 1).responses.length ≠
      (simulate gapsLate 10 1).arrivals ∧
    (simulate gapsLate 10 1).dropped + (simulate gapsLate 10 1).responses.length = 0 ∧
    (simulate gapsLate 10 1).arrivals = 1 ∧
    finishedRun (simulate gapsLate 10 1) = true := by
  decide

/-- C1 witness: the utilization formula theorem applied to the concrete
run with gap stream gapsTwo, fuel 7 and one server. -/
theorem claim1_witness :
    run_simulation gapsTwo 7 1 = Except.ok
      (avgResponse (simulate gapsTwo 7 (1 : ℤ).toNat).responses,
        (simulate gapsTwo 7 (1 : ℤ).toNat).responses.sum /
          (((1 : ℤ) : ℚ) * SIMULATION_TIME) * 100,
        (simulate gapsTwo 7 (1 : ℤ).toNat).dropped) ∧
    0 ≤ (simulate gapsTwo 7 (1 : ℤ).toNat).responses.sum /
        (((1 : ℤ) : ℚ) * SIMULATION_TIME) * 100 ∧
    (((1 : ℤ) : ℚ) * SIMULATION_TIME <
        (simulate gapsTwo 7 (1 : ℤ).toNat).responses.sum →
      100 < (simulate gapsTwo 7 (1 : ℤ).toNat).responses.sum /
        (((1 : ℤ) : ℚ) * SIMULATION_TIME) * 100) :=
  claim1_utilization_formula gapsTwo (fun _ => by show (0:ℚ) ≤ 2; decide) 7 1 (by decide)

/-- C3 witness: at the probe state a granted request that arrived at time
1 has waited 4 > 1 units, so the grant-policy theorem yields the timeout
drop. -/
theorem claim3_witness :
    (step gapsTwo probeState (EventKind.grant 1)).dropped =
      probeState.dropped + 1 := by
  rw [(claim3_grant_policy gapsTwo probeState 1).1]
  decide

/-- C4 witness: the arrival-policy theorem at a state whose waiting line
holds exactly MAX_QUEUE_SIZE requests rejects the next arrival. -/
theorem claim4_witness :
    (step gapsTwo fullState EventKind.arrival).dropped =
      fullState.dropped + 1 :=
  (claim4_arrival_policy gapsTwo fullState).2.1 (by decide)

/-- C5 witness: in the run where the first arrival lies past the horizon
nothing is served, and the average-sentinel theorem reports the explicit
absent value. -/
theorem claim5_witness :
    avgResponse (simulate gapsTwenty 3 (1 : ℤ).toNat).responses = none :=
  (claim5_average_sentinel gapsTwenty 3 1 (by decide)).2.1 (by decide)

/-- C6 witness: zero servers fail with the invalid-configuration error. -/
theorem claim6_witness :
    run_simulation gapsTwenty 0 0 = Except.error SimError.invalidConfiguration :=
  claim6_invalid_configuration gapsTwenty 0 0 (by decide)

/-- C7 witness: the determinism theorem applied to two identical runs. -/
theorem claim7_witness :
    run_simulation gapsTwo 7 1 = run_simulation gapsTwo 7 1 :=
  claim7_determinism gapsTwo gapsTwo 7 7 1 1 rfl rfl rfl

/-- C8 witness: the clock-and-horizon theorem applied to the concrete run
with unit gaps, fuel 5 and one server. -/
theorem claim8_witness :
    List.Chain' (· ≤ ·) (simulate gapsOne 5 1).trace ∧
    ∀ x ∈ (simulate gapsOne 5 1).trace, x < SIMULATION_TIME :=
  claim8_clock_monotone_horizon gapsOne (fun _ => by show (0:ℚ) ≤ 1; decide) 5 1

/-- C9 witness: the recorded response time 2/10 of the gapsTwo run lies in
[PROCESSING_TIME, 1 + PROCESSING_TIME]. -/
theorem claim9_witness :
    PROCESSING_TIME ≤ mkRat 2 10 ∧ mkRat 2 10 ≤ 1 + PROCESSING_TIME :=
  claim9_response_time_bounds gapsTwo (fun _ => by show (0:ℚ) ≤ 2; decide) 7 1 (mkRat 2 10)
    (by decide)

/-- C10 witness: the no-service run returns the degenerate triple with
utilization exactly 0. -/
theorem claim10_witness :
    run_simulation gapsTwenty 3 1 =
      Except.ok (none, 0, (simulate gapsTwenty 3 (1 : ℤ).toNat).dropped) :=
  claim10_no_service_zero_utilization gapsTwenty 3 1 (by decide) (by decide)

end Witnesses
